import Mathlib

/-!
Verification of the agentsociety traffic-simulation kernel.

This file gives a shallow embedding, over exact rational arithmetic, of the
parts of the Go source that the checked properties talk about:

* the per-lane ordered linked list (`container.List`: `PopUnsorted`, `Merge`)
  and the buffered `laneList.prepare` maintenance pass;
* the IDM car-following core `controller.followImpl` and the acceleration
  post-processing at the end of `controller.update`;
* the `Action.Update` combinator for longitudinal/lateral decisions;
* `Lane.GetPressure` used by the Max-Pressure signal controller;
* `Person.updatePedestrian` and the pedestrian route stepping;
* the `WAIT_ROUTE` branch of `Person.update` with `Schedule.NextTrip`;
* the guard branch of the Max-Pressure controller `Prepare`/`Update`.

Go `float64` values are modelled as `ℚ`; `math.Sqrt` is modelled as an
abstract function parameter (every statement proved holds for any
interpretation of it, hence for the real square root), and the float
infinity `mathutil.INF` is modelled as an explicit parameter `inf` that the
theorems constrain to dominate the finite quantities in play.
-/

namespace AgentSociety

/-- `lo.Clamp(value, min, max)` from the samber/lo library, used throughout
the source: returns `min` if `value < min`, `max` if `value > max`, else
`value`. -/
def goClamp (value lo hi : ℚ) : ℚ :=
  if value < lo then lo else if value > hi then hi else value

theorem goClamp_mem (value lo hi : ℚ) (h : lo ≤ hi) :
    lo ≤ goClamp value lo hi ∧ goClamp value lo hi ≤ hi := by
  unfold goClamp
  split
  · exact ⟨le_refl _, h⟩
  · split
    · exact ⟨h, le_refl _⟩
    · constructor <;> linarith [not_lt.mp (by assumption : ¬ value < lo)]

/-! ## Lane linked lists (`utils/container/list.go`, `entity/lane/util.go`)

A `container.ListNode` carries a sort key `S` (arc position on the lane) and
a value; for the ordering claims only the key matters, and we keep a node
identity to be able to speak about buffered removals. -/

/-- A lane-list node: `id` models the Go pointer identity, `S` is the sort
key (arc position in meters). -/
structure VNode where
  id : ℕ
  S : ℚ
deriving DecidableEq

/-- The (non-strict) ordering invariant of a lane list: keys ascending. -/
def SortedByS (l : List VNode) : Prop :=
  l.Pairwise fun a b => a.S ≤ b.S

instance (l : List VNode) : Decidable (SortedByS l) := by
  unfold SortedByS; infer_instance

/-- The scanning loop of `List.PopUnsorted`: walk the list front to back,
removing every node whose predecessor (in the evolving list) has a larger
key.  `last` is the key of the last surviving node seen so far (`none` at
the head, whose `prev` is nil and which is always kept). -/
def popUnsortedGo (last : Option ℚ) : List VNode → List VNode × List VNode
  | [] => ([], [])
  | n :: rest =>
    match last with
    | some k =>
      if k > n.S then
        ((popUnsortedGo (some k) rest).1, n :: (popUnsortedGo (some k) rest).2)
      else
        (n :: (popUnsortedGo (some n.S) rest).1, (popUnsortedGo (some n.S) rest).2)
    | none =>
      (n :: (popUnsortedGo (some n.S) rest).1, (popUnsortedGo (some n.S) rest).2)

/-- `List.PopUnsorted`: returns (surviving list, removed out-of-order
nodes, in scan order). -/
def PopUnsorted (l : List VNode) : List VNode × List VNode :=
  popUnsortedGo none l

/-- One pass of the inner loop of the quadratic swap sort at the head of
`List.Merge`: given the current value `x` at position `i` and the suffix,
returns the minimum brought to position `i` and the rewritten suffix (when
`x.S > y.S` the two are swapped and the scan continues with `y`). -/
def selOne (x : VNode) : List VNode → VNode × List VNode
  | [] => (x, [])
  | y :: ys =>
    if x.S > y.S then ((selOne y ys).1, x :: (selOne y ys).2)
    else ((selOne x ys).1, y :: (selOne x ys).2)

theorem selOne_snd_length (x : VNode) (l : List VNode) :
    (selOne x l).2.length = l.length := by
  induction l generalizing x with
  | nil => rfl
  | cons y ys ih =>
    by_cases h : x.S > y.S <;> simp [selOne, h, ih]

/-- The full swap sort on the `adds` array at the head of `List.Merge`
(`for i; for j > i: if adds[i].S > adds[j].S swap`). -/
def sortAdds : List VNode → List VNode
  | [] => []
  | x :: xs => (selOne x xs).1 :: sortAdds (selOne x xs).2
termination_by l => l.length
decreasing_by simp [selOne_snd_length]

/-- The merge loop of `List.Merge`: `rest` is the sublist from the scan
pointer `node` to the tail; each `add` is inserted directly before the
first remaining node whose key is `≥ add.S`, and the pointer never moves
backwards; when the pointer has run off the end every remaining add is
pushed back in order. -/
def mergeAux : List VNode → List VNode → List VNode
  | [], adds => adds
  | rest, [] => rest
  | n :: ns, add :: adds =>
    if n.S < add.S then n :: mergeAux ns (add :: adds)
    else add :: mergeAux (n :: ns) adds
termination_by l r => l.length + r.length
decreasing_by
  all_goals simp

/-- `List.Merge(adds)`: sort the batch, then merge-insert it. -/
def Merge (l : List VNode) (adds : List VNode) : List VNode :=
  mergeAux l (sortAdds adds)

/-- `laneList.prepare`: apply buffered removes (`List.Remove` by node
identity), pop the order-inverted nodes, and re-insert the union of the add
buffer and the popped nodes via `List.Merge`. -/
def prepare (l addBuffer removeBuffer : List VNode) : List VNode :=
  Merge (PopUnsorted (removeBuffer.foldl (fun acc v => acc.eraseP (fun n => n.id == v.id)) l)).1
    (addBuffer ++ (PopUnsorted (removeBuffer.foldl (fun acc v => acc.eraseP (fun n => n.id == v.id)) l)).2)

theorem popUnsortedGo_some_chain (l : List VNode) :
    ∀ k : ℚ, List.Chain' (· ≤ ·) (k :: ((popUnsortedGo (some k) l).1.map VNode.S)) := by
  induction l with
  | nil => intro k; simp [popUnsortedGo]
  | cons n rest ih =>
    intro k
    by_cases h : k > n.S
    · simpa [popUnsortedGo, h] using ih k
    · simp only [popUnsortedGo, if_neg h, List.map_cons, List.chain'_cons]
      exact ⟨le_of_not_lt h, ih n.S⟩

theorem PopUnsorted_fst_chain (l : List VNode) :
    List.Chain' (· ≤ ·) ((PopUnsorted l).1.map VNode.S) := by
  cases l with
  | nil => simp [PopUnsorted, popUnsortedGo]
  | cons n rest =>
    simpa [PopUnsorted, popUnsortedGo] using popUnsortedGo_some_chain rest n.S

theorem sortedByS_iff_chain (l : List VNode) :
    SortedByS l ↔ List.Chain' (· ≤ ·) (l.map VNode.S) := by
  unfold SortedByS
  rw [List.chain'_iff_pairwise, List.pairwise_map]

theorem PopUnsorted_fst_sorted (l : List VNode) : SortedByS (PopUnsorted l).1 := by
  rw [sortedByS_iff_chain]
  exact PopUnsorted_fst_chain l

theorem selOne_fst_le (x : VNode) (l : List VNode) :
    (selOne x l).1.S ≤ x.S ∧ ∀ y ∈ l, (selOne x l).1.S ≤ y.S := by
  induction l generalizing x with
  | nil => simp [selOne]
  | cons y ys ih =>
    by_cases h : x.S > y.S
    · simp only [selOne, if_pos h]
      refine ⟨le_trans (ih y).1 (le_of_lt h), ?_⟩
      intro z hz
      rcases List.mem_cons.mp hz with heq | hz
      · rw [heq]; exact (ih y).1
      · exact (ih y).2 z hz
    · simp only [selOne, if_neg h]
      refine ⟨(ih x).1, ?_⟩
      intro z hz
      rcases List.mem_cons.mp hz with heq | hz
      · rw [heq]; exact le_trans (ih x).1 (le_of_not_lt h)
      · exact (ih x).2 z hz

theorem selOne_snd_mem (x : VNode) (l : List VNode) :
    ∀ z ∈ (selOne x l).2, z = x ∨ z ∈ l := by
  induction l generalizing x with
  | nil => simp [selOne]
  | cons y ys ih =>
    by_cases h : x.S > y.S
    · simp only [selOne, if_pos h]
      intro z hz
      rcases List.mem_cons.mp hz with heq | hz
      · left; exact heq
      · rcases ih y z hz with heq | hmem
        · right; rw [heq]; exact List.mem_cons_self _ _
        · right; exact List.mem_cons_of_mem _ hmem
    · simp only [selOne, if_neg h]
      intro z hz
      rcases List.mem_cons.mp hz with heq | hz
      · right; rw [heq]; exact List.mem_cons_self _ _
      · rcases ih x z hz with heq | hmem
        · left; exact heq
        · right; exact List.mem_cons_of_mem _ hmem

theorem selOne_fst_mem (x : VNode) (l : List VNode) :
    (selOne x l).1 = x ∨ (selOne x l).1 ∈ l := by
  induction l generalizing x with
  | nil => simp [selOne]
  | cons y ys ih =>
    by_cases h : x.S > y.S
    · simp only [selOne, if_pos h]
      rcases ih y with heq | hmem
      · right; rw [heq]; exact List.mem_cons_self _ _
      · right; exact List.mem_cons_of_mem _ hmem
    · simp only [selOne, if_neg h]
      rcases ih x with heq | hmem
      · left; exact heq
      · right; exact List.mem_cons_of_mem _ hmem

theorem sortAdds_props : ∀ (fuel : ℕ) (l : List VNode), l.length ≤ fuel →
    SortedByS (sortAdds l) ∧ ∀ z ∈ sortAdds l, z ∈ l := by
  intro fuel
  induction fuel with
  | zero =>
    intro l hl
    have hnil : l = [] := List.length_eq_zero.mp (Nat.le_zero.mp hl)
    subst hnil
    simp [sortAdds, SortedByS]
  | succ m ih =>
    intro l hl
    match l with
    | [] => simp [sortAdds, SortedByS]
    | x :: xs =>
      have hlen : (selOne x xs).2.length ≤ m := by
        rw [selOne_snd_length]
        simp only [List.length_cons] at hl
        omega
      obtain ⟨hsorted, hmem⟩ := ih (selOne x xs).2 hlen
      rw [sortAdds]
      constructor
      · unfold SortedByS
        rw [List.pairwise_cons]
        refine ⟨?_, hsorted⟩
        intro z hz
        rcases selOne_snd_mem x xs z (hmem z hz) with heq | h
        · rw [heq]; exact (selOne_fst_le x xs).1
        · exact (selOne_fst_le x xs).2 z h
      · intro z hz
        rcases List.mem_cons.mp hz with heq | hz
        · rcases selOne_fst_mem x xs with heq2 | hmem2
          · rw [heq, heq2]; exact List.mem_cons_self _ _
          · rw [heq]; exact List.mem_cons_of_mem _ hmem2
        · rcases selOne_snd_mem x xs z (hmem z hz) with heq | hmem2
          · rw [heq]; exact List.mem_cons_self _ _
          · exact List.mem_cons_of_mem _ hmem2

theorem sortAdds_sorted (l : List VNode) : SortedByS (sortAdds l) :=
  (sortAdds_props l.length l (le_refl _)).1

theorem sortAdds_subset (l : List VNode) : ∀ z ∈ sortAdds l, z ∈ l :=
  (sortAdds_props l.length l (le_refl _)).2

theorem mergeAux_mem (l r : List VNode) :
    ∀ z ∈ mergeAux l r, z ∈ l ∨ z ∈ r := by
  induction l generalizing r with
  | nil =>
    intro z hz
    right
    simpa [mergeAux] using hz
  | cons n ns ih1 =>
    induction r with
    | nil =>
      intro z hz
      left
      simpa [mergeAux] using hz
    | cons add adds ih2 =>
      intro z hz
      rw [mergeAux] at hz
      by_cases h : n.S < add.S
      · rw [if_pos h] at hz
        rcases List.mem_cons.mp hz with heq | hz
        · left; rw [heq]; exact List.mem_cons_self _ _
        · rcases ih1 (add :: adds) z hz with hm | hm
          · left; exact List.mem_cons_of_mem _ hm
          · right; exact hm
      · rw [if_neg h] at hz
        rcases List.mem_cons.mp hz with heq | hz
        · right; rw [heq]; exact List.mem_cons_self _ _
        · rcases ih2 z hz with hm | hm
          · left; exact hm
          · right; exact List.mem_cons_of_mem _ hm

theorem mergeAux_sorted (l r : List VNode) (hl : SortedByS l) (hr : SortedByS r) :
    SortedByS (mergeAux l r) := by
  induction l generalizing r with
  | nil => simpa [mergeAux] using hr
  | cons n ns ih1 =>
    induction r with
    | nil => simpa [mergeAux] using hl
    | cons add adds ih2 =>
      rw [mergeAux]
      obtain ⟨hn, hns⟩ := List.pairwise_cons.mp hl
      obtain ⟨hadd, hadds⟩ := List.pairwise_cons.mp hr
      by_cases h : n.S < add.S
      · rw [if_pos h]
        unfold SortedByS
        rw [List.pairwise_cons]
        constructor
        · intro z hz
          rcases mergeAux_mem ns (add :: adds) z hz with hm | hm
          · exact hn z hm
          · rcases List.mem_cons.mp hm with heq | hm
            · rw [heq]; exact le_of_lt h
            · exact le_trans (le_of_lt h) (hadd z hm)
        · exact ih1 (add :: adds) hns hr
      · rw [if_neg h]
        unfold SortedByS
        rw [List.pairwise_cons]
        constructor
        · intro z hz
          rcases mergeAux_mem (n :: ns) adds z hz with hm | hm
          · rcases List.mem_cons.mp hm with heq | hm
            · rw [heq]; exact le_of_not_lt h
            · exact le_trans (le_of_not_lt h) (hn z hm)
          · exact hadd z hm
        · exact ih2 hadds

theorem prepare_sorted_aux (l addBuffer removeBuffer : List VNode) :
    SortedByS (prepare l addBuffer removeBuffer) := by
  unfold prepare Merge
  exact mergeAux_sorted _ _ (PopUnsorted_fst_sorted _) (sortAdds_sorted _)

/-- C1: for every initial lane-list state and any contents of the add and
remove buffers, the vehicle node sequence produced by `laneList.prepare`
(buffered removes, then `List.PopUnsorted`, then `List.Merge` of the add
buffer together with the popped nodes) is sorted by arc-position key `S`
ascending. -/
theorem lanePrepare_sorted (l addBuffer removeBuffer : List VNode) :
    SortedByS (prepare l addBuffer removeBuffer) :=
  prepare_sorted_aux l addBuffer removeBuffer

theorem popUnsortedGo_some_id (l : List VNode) :
    ∀ k : ℚ, List.Chain' (· ≤ ·) (k :: l.map VNode.S) →
      popUnsortedGo (some k) l = (l, []) := by
  induction l with
  | nil => intro k _; rfl
  | cons n rest ih =>
    intro k hc
    rw [List.map_cons, List.chain'_cons] at hc
    have hk : ¬ k > n.S := not_lt.mpr hc.1
    rw [popUnsortedGo, if_neg hk, ih n.S hc.2]

theorem PopUnsorted_of_sorted (l : List VNode) (h : SortedByS l) :
    PopUnsorted l = (l, []) := by
  cases l with
  | nil => rfl
  | cons n rest =>
    have hc := (sortedByS_iff_chain (n :: rest)).mp h
    rw [List.map_cons] at hc
    unfold PopUnsorted
    rw [popUnsortedGo, popUnsortedGo_some_id rest n.S hc]

theorem mergeAux_nil_right (l : List VNode) : mergeAux l [] = l := by
  cases l <;> simp [mergeAux]

/-- C8: with empty add/remove buffers a second `laneList.prepare` is a
no-op — the node sequence (nodes, order and keys) left by any preceding
`prepare` is returned unchanged, so `prepare` twice equals `prepare` once. -/
theorem lanePrepare_idempotent (l addBuffer removeBuffer : List VNode) :
    prepare (prepare l addBuffer removeBuffer) [] [] =
      prepare l addBuffer removeBuffer := by
  have hs : SortedByS (prepare l addBuffer removeBuffer) :=
    prepare_sorted_aux l addBuffer removeBuffer
  conv_lhs => rw [prepare]
  rw [List.foldl_nil, PopUnsorted_of_sorted _ hs]
  unfold Merge
  rw [List.nil_append, sortAdds, mergeAux_nil_right]

/-! ## IDM car following (`entity/person/controllermodel.go`) -/

/-- The IDM exponent constant `idmTheta = 4` of `entity/person/controller.go`. -/
def idmTheta : ℕ := 4

/-- The desired-gap local `s_star` of `controller.followImpl`:
`minGap + max(0, selfV*headway + selfV*(selfV-aheadV)/2/math.Sqrt(-usualBrakingA*maxA))`. -/
def s_star (sqrtFn : ℚ → ℚ) (usualBrakingA maxA selfV aheadV minGap headway : ℚ) : ℚ :=
  minGap + max 0 (selfV * headway + selfV * (selfV - aheadV) / 2 / sqrtFn (-usualBrakingA * maxA))

/-- `controller.followImpl`: if the gap is non-positive the raw acceleration
is `-INF` (emergency), otherwise the IDM formula
`maxA * (1 - (selfV/targetV)^idmTheta - (s_star/distance)^2)`; the result is
clamped to `[maxBrakingA, maxA]`.  `sqrtFn` models `math.Sqrt`, `inf`
models `mathutil.INF`. -/
def followImpl (sqrtFn : ℚ → ℚ) (inf usualBrakingA maxBrakingA maxA : ℚ)
    (selfV targetV aheadV distance minGap headway : ℚ) : ℚ :=
  goClamp
    (if distance ≤ 0 then -inf
     else maxA * (1 - (selfV / targetV) ^ idmTheta -
       (s_star sqrtFn usualBrakingA maxA selfV aheadV minGap headway / distance) ^ 2))
    maxBrakingA maxA

/-- The car-following acceleration exactly as the specification words it
(refinement reference, for the positive-gap branch): desired gap
`s* = g0 + max(0, v·tau + v·(v − v_a)/(2·sqrt(A·|B|)))`, acceleration
`A·(1 − (v/v*)^4 − (s*/d)^2)` clamped to `[maxBrakingA, maxA]`. -/
def specIDMAcc (sqrtFn : ℚ → ℚ) (usualBrakingA maxBrakingA maxA : ℚ)
    (selfV targetV aheadV d g0 tau : ℚ) : ℚ :=
  goClamp
    (maxA * (1 - (selfV / targetV) ^ 4 -
      ((g0 + max 0 (selfV * tau + selfV * (selfV - aheadV) /
        (2 * sqrtFn (maxA * |usualBrakingA|)))) / d) ^ 2))
    maxBrakingA maxA

/-- C3: with `maxA > 0` and `usualBrakingA < 0` (and the float infinity
dominating the finite braking bound), `followImpl` returns `maxBrakingA`
whenever `d ≤ 0`, and otherwise returns exactly the clamped IDM formula of
the specification, with desired gap built from `sqrt(maxA·|usualBrakingA|)`. -/
theorem followImpl_spec (sqrtFn : ℚ → ℚ)
    (inf usualBrakingA maxBrakingA maxA selfV targetV aheadV d g0 tau : ℚ)
    (hA : 0 < maxA) (hB : usualBrakingA < 0) (hinf : -inf < maxBrakingA) :
    (d ≤ 0 →
      followImpl sqrtFn inf usualBrakingA maxBrakingA maxA selfV targetV aheadV d g0 tau =
        maxBrakingA) ∧
    (0 < d →
      followImpl sqrtFn inf usualBrakingA maxBrakingA maxA selfV targetV aheadV d g0 tau =
        specIDMAcc sqrtFn usualBrakingA maxBrakingA maxA selfV targetV aheadV d g0 tau) := by
  constructor
  · intro hd
    rw [followImpl, if_pos hd, goClamp, if_pos hinf]
  · intro hd
    rw [followImpl, if_neg (not_le.mpr hd), specIDMAcc, s_star]
    have habs : |usualBrakingA| = -usualBrakingA := abs_of_neg hB
    have harg : -usualBrakingA * maxA = maxA * |usualBrakingA| := by
      rw [habs]; ring
    have hstar : selfV * (selfV - aheadV) / 2 / sqrtFn (-usualBrakingA * maxA) =
        selfV * (selfV - aheadV) / (2 * sqrtFn (maxA * |usualBrakingA|)) := by
      rw [harg, div_div]
    rw [hstar]
    norm_num [idmTheta]

/-- C3 witness: concrete evaluation of both branches of `followImpl_spec`
(with the identity as the abstract square root, `inf = 1000`). -/
theorem followImpl_spec_witness :
    followImpl (fun q => q) 1000 (-1) (-5) 2 3 2 1 (-1) 2 1 = -5 ∧
    followImpl (fun q => q) 1000 (-1) (-5) 2 3 2 1 4 2 1 =
      specIDMAcc (fun q => q) (-1) (-5) 2 3 2 1 4 2 1 :=
  ⟨(followImpl_spec (fun q => q) 1000 (-1) (-5) 2 3 2 1 (-1) 2 1
      (by norm_num) (by norm_num) (by norm_num)).1 (by norm_num),
   (followImpl_spec (fun q => q) 1000 (-1) (-5) 2 3 2 1 4 2 1
      (by norm_num) (by norm_num) (by norm_num)).2 (by norm_num)⟩

/-! ## Acceleration post-processing (`entity/person/controller.go`, end of
`controller.update`) -/

/-- `maxNoiseA = .5` of `entity/person/controller.go`. -/
def maxNoiseA : ℚ := 1/2

/-- `zeroAThreshold = .1` of `entity/person/controller.go`. -/
def zeroAThreshold : ℚ := 1/10

/-- `math.Signbit` on the rational model (floats' negative zero has no
rational counterpart). -/
def signbit (x : ℚ) : Bool := decide (x < 0)

/-- The last lines of `controller.update`: clamp the combined acceleration
to `[maxBrakingA, maxA]`, draw `noise_acc = maxNoiseA * clamp(.5*g, -1, 1)`
from the per-person normal sample `g`, and add it unless the clamped value
is below `zeroAThreshold` in magnitude or the addition would flip its sign. -/
def updatePostprocessA (maxBrakingA maxA a g : ℚ) : ℚ :=
  if zeroAThreshold ≤ |goClamp a maxBrakingA maxA| ∧
      signbit (goClamp a maxBrakingA maxA) =
        signbit (goClamp a maxBrakingA maxA + maxNoiseA * goClamp (1/2 * g) (-1) 1) then
    goClamp a maxBrakingA maxA + maxNoiseA * goClamp (1/2 * g) (-1) 1
  else goClamp a maxBrakingA maxA

/-- C2 counterexample: with `maxBrakingA = -4`, `maxA = 2`, a combined
acceleration of `2` and normal sample `2`, the returned acceleration is
`5/2`, outside `[maxBrakingA, maxA] = [-4, 2]`: the Gaussian perturbation
is applied after the clamp and may leave the interval. -/
theorem updatePostprocessA_outside_range :
    updatePostprocessA (-4) 2 2 2 = 5/2 ∧ ¬ ((5:ℚ)/2 ≤ 2) := by
  constructor
  · norm_num [updatePostprocessA, goClamp, signbit, maxNoiseA, zeroAThreshold]
  · norm_num

/-- C2 (amended): the acceleration returned by `controller.update` is the
clamp of the combined acceleration to `[maxBrakingA, maxA]` plus a noise
term bounded by `maxNoiseA = 0.5`, hence it lies in
`[maxBrakingA − 0.5, maxA + 0.5]`. -/
theorem updatePostprocessA_bounds (maxBrakingA maxA a g : ℚ) (h : maxBrakingA ≤ maxA) :
    maxBrakingA - maxNoiseA ≤ updatePostprocessA maxBrakingA maxA a g ∧
      updatePostprocessA maxBrakingA maxA a g ≤ maxA + maxNoiseA := by
  obtain ⟨h1, h2⟩ := goClamp_mem a maxBrakingA maxA h
  obtain ⟨h3, h4⟩ := goClamp_mem (1/2 * g) (-1) 1 (by norm_num)
  rw [updatePostprocessA]
  split
  · simp only [maxNoiseA]
    constructor <;> linarith
  · simp only [maxNoiseA]
    constructor <;> linarith

/-- C2 witness: the amended bound evaluated at a concrete input. -/
theorem updatePostprocessA_bounds_witness :
    (-4 : ℚ) - maxNoiseA ≤ updatePostprocessA (-4) 2 0 0 ∧
      updatePostprocessA (-4) 2 0 0 ≤ 2 + maxNoiseA :=
  updatePostprocessA_bounds (-4) 2 0 0 (by norm_num)

/-! ## Action combinator (`entity/person/vehicleaction.go`) -/

/-- `person.Action`: acceleration, optional lane-change target (the lane id
models the `entity.ILane` pointer, `none` is nil), steering angle, and the
front-distance statistic. -/
structure Action where
  A : ℚ
  LCTarget : Option ℕ
  LCPhi : ℚ
  AheadVDistance : ℚ
deriving DecidableEq

/-- One iteration of the loop body of `Action.Update`: keep the smaller
acceleration; a non-nil lane-change target of the other action overwrites
the current one (logging an error if one was already set). -/
def Action.updateOne (a o : Action) : Action :=
  if o.LCTarget.isSome then
    { (if o.A < a.A then { a with A := o.A } else a) with
      LCTarget := o.LCTarget, LCPhi := o.LCPhi }
  else if o.A < a.A then { a with A := o.A } else a

/-- `Action.Update(others...)`: fold the loop body over the variadic list. -/
def Action.Update (a : Action) (others : List Action) : Action :=
  others.foldl Action.updateOne a

theorem Action.updateOne_A (a o : Action) : (Action.updateOne a o).A = min a.A o.A := by
  rw [Action.updateOne]
  rcases o.LCTarget.isSome with _ | _ <;> by_cases h : o.A < a.A <;>
    simp [h, min_def, le_of_lt, le_of_not_lt]

theorem Action.updateOne_LCTarget (a o : Action) :
    (Action.updateOne a o).LCTarget =
      if o.LCTarget.isSome then o.LCTarget else a.LCTarget := by
  rw [Action.updateOne]
  by_cases h : o.LCTarget.isSome <;> by_cases h2 : o.A < a.A <;> simp [h, h2]

theorem Action.Update_A (a : Action) (others : List Action) :
    (Action.Update a others).A = (others.map Action.A).foldl min a.A := by
  induction others generalizing a with
  | nil => rfl
  | cons o os ih =>
    rw [Action.Update, List.foldl_cons, List.map_cons, List.foldl_cons,
      ← Action.updateOne_A]
    exact ih (Action.updateOne a o)

theorem foldl_min_mem (x : ℚ) (l : List ℚ) :
    l.foldl min x = x ∨ l.foldl min x ∈ l := by
  induction l generalizing x with
  | nil => left; rfl
  | cons y ys ih =>
    rw [List.foldl_cons]
    rcases ih (min x y) with h | h
    · rcases min_choice x y with hm | hm
      · left; rw [h, hm]
      · right; rw [h, hm]; exact List.mem_cons_self _ _
    · right; exact List.mem_cons_of_mem _ h

theorem foldl_min_le (x : ℚ) (l : List ℚ) :
    l.foldl min x ≤ x ∧ ∀ y ∈ l, l.foldl min x ≤ y := by
  induction l generalizing x with
  | nil => simp
  | cons y ys ih =>
    rw [List.foldl_cons]
    refine ⟨le_trans (ih (min x y)).1 (min_le_left _ _), ?_⟩
    intro z hz
    rcases List.mem_cons.mp hz with heq | hz
    · rw [heq]; exact le_trans (ih (min x y)).1 (min_le_right _ _)
    · exact (ih (min x y)).2 z hz

theorem Action.Update_LCTarget (a : Action) (others : List Action) :
    (Action.Update a others).LCTarget =
      ((a :: others).filterMap Action.LCTarget).getLast? := by
  induction others generalizing a with
  | nil =>
    rcases h : a.LCTarget with _ | t <;>
      simp [Action.Update, List.filterMap_cons, h]
  | cons o os ih =>
    rw [Action.Update, List.foldl_cons]
    have step := ih (Action.updateOne a o)
    rw [Action.Update] at step
    rw [step]
    rcases ho : o.LCTarget with _ | t
    · have h1 : (Action.updateOne a o).LCTarget = a.LCTarget := by
        rw [Action.updateOne_LCTarget, ho]; rfl
      rcases ha : a.LCTarget with _ | s <;>
        simp [List.filterMap_cons, h1, ha, ho]
    · have h1 : (Action.updateOne a o).LCTarget = some t := by
        rw [Action.updateOne_LCTarget, ho]; rfl
      rcases ha : a.LCTarget with _ | s <;>
        simp [List.filterMap_cons, h1, ha, ho, List.getLast?_cons_cons]

/-- First action of `exActs` carrying a lane-change target (target lane 1). -/
def exActB : Action := ⟨0, some 1, 0, -1⟩

/-- Second action of `exActs` carrying a lane-change target (target lane 2). -/
def exActC : Action := ⟨0, some 2, 0, -1⟩

/-- C7 counterexample: combining two actions whose targets are lanes 1 and 2
(in this order) into a target-less action yields target lane 2 — the LAST
writer wins in `Action.Update`, not the first as the claim states. -/
theorem Action_Update_last_writer_wins :
    (Action.Update ⟨0, none, 0, -1⟩ [exActB, exActC]).LCTarget = some 2 ∧
      ([exActB, exActC].filterMap Action.LCTarget).head? = some 1 ∧
      (2 : ℕ) ≠ 1 := by
  refine ⟨?_, by rfl, by omega⟩
  rfl

/-- C7 (amended): the acceleration of the combined action is the minimum of
the receiver's and all the others' accelerations, and the lane-change
target is the target of the last action (receiver included) carrying a
non-nil one (with an error logged when a target is overwritten). -/
theorem Action_Update_spec (a : Action) (others : List Action) :
    ((Action.Update a others).A ∈ (a :: others).map Action.A ∧
      ∀ o ∈ a :: others, (Action.Update a others).A ≤ o.A) ∧
    (Action.Update a others).LCTarget =
      ((a :: others).filterMap Action.LCTarget).getLast? := by
  refine ⟨⟨?_, ?_⟩, Action.Update_LCTarget a others⟩
  · rw [Action.Update_A, List.map_cons]
    rcases foldl_min_mem a.A (others.map Action.A) with h | h
    · rw [h]; exact List.mem_cons_self _ _
    · exact List.mem_cons_of_mem _ h
  · intro o ho
    rw [Action.Update_A]
    rcases List.mem_cons.mp ho with heq | ho
    · rw [heq]; exact (foldl_min_le a.A (others.map Action.A)).1
    · exact (foldl_min_le a.A (others.map Action.A)).2 o.A
        (List.mem_map_of_mem Action.A ho)

/-! ## Lane pressure (`entity/lane/lane.go`, `Lane.GetPressure`) -/

/-- `mapv2.LaneType`. -/
inductive LaneType where
  | unspecified
  | driving
  | walking
  | rail
deriving DecidableEq

/-- `mapv2.LaneTurn`. -/
inductive LaneTurn where
  | unspecifiedTurn
  | straight
  | left
  | right
  | around
deriving DecidableEq

/-- A lane reached through a `Predecessors()`/`Successors()` connection map;
`GetPressure` reads only its length and vehicle-list length. -/
structure NbConn where
  length : ℚ
  vehicles : ℕ
deriving DecidableEq

/-- The unique predecessor (or successor) of a junction driving lane, with
the neighbourhood data `GetPressure` reads from it. -/
structure NbInfo where
  length : ℚ
  vehicles : ℕ
  preds : List NbConn
  succs : List NbConn
deriving DecidableEq

/-- The view of a lane taken by `Lane.GetPressure`. -/
structure PressureLane where
  typ : LaneType
  turn : LaneTurn
  uniquePredecessor : Option NbInfo
  uniqueSuccessor : Option NbInfo
deriving DecidableEq

/-- The incoming density term of `GetPressure`: vehicles over length if the
predecessor is longer than 10 m, otherwise vehicles and length pooled with
the predecessor's own predecessor lanes; then split over the predecessor's
successor count. -/
def pressureIncoming (pre : NbInfo) : ℚ :=
  (if pre.length > 10 then (pre.vehicles : ℚ) / pre.length
   else ((pre.vehicles + (pre.preds.map NbConn.vehicles).sum : ℕ) : ℚ) /
     (pre.length + (pre.preds.map NbConn.length).sum)) /
    ((pre.succs.length : ℚ))

/-- The outgoing density term of `GetPressure`, symmetric over the
successor's own successor lanes and its predecessor count. -/
def pressureOutgoing (suc : NbInfo) : ℚ :=
  (if suc.length > 10 then (suc.vehicles : ℚ) / suc.length
   else ((suc.vehicles + (suc.succs.map NbConn.vehicles).sum : ℕ) : ℚ) /
     (suc.length + (suc.succs.map NbConn.length).sum)) /
    ((suc.preds.length : ℚ))

/-- `Lane.GetPressure`: walking lanes and right-turn lanes give zero;
an unspecified type or a missing unique predecessor/successor panics
(modelled as `none`); otherwise incoming minus outgoing density. -/
def GetPressure (l : PressureLane) : Option ℚ :=
  if l.typ = LaneType.unspecified then none
  else if l.typ = LaneType.walking then some 0
  else if l.turn = LaneTurn.right then some 0
  else
    match l.uniquePredecessor, l.uniqueSuccessor with
    | some pre, some suc => some (pressureIncoming pre - pressureOutgoing suc)
    | _, _ => none

/-- The pressure formula exactly as the claim words it: vehicle count over
`max(length, 10)` on each side, split over the branching factors. -/
def specPressureClaimed (l : PressureLane) : Option ℚ :=
  if l.typ = LaneType.walking then some 0
  else if l.turn = LaneTurn.right then some 0
  else
    match l.uniquePredecessor, l.uniqueSuccessor with
    | some pre, some suc =>
      some ((pre.vehicles : ℚ) / max pre.length 10 / ((pre.succs.length : ℚ)) -
        (suc.vehicles : ℚ) / max suc.length 10 / ((suc.preds.length : ℚ)))
    | _, _ => none

/-- A junction driving lane whose unique predecessor is 5 m long and holds
one vehicle (no further upstream junction lanes, one successor), and whose
unique successor is 20 m long and empty. -/
def exPressureLane : PressureLane :=
  { typ := LaneType.driving, turn := LaneTurn.straight,
    uniquePredecessor := some { length := 5, vehicles := 1, preds := [], succs := [⟨1, 0⟩] },
    uniqueSuccessor := some { length := 20, vehicles := 0, preds := [⟨1, 0⟩], succs := [] } }

/-- C4 counterexample: for a 5 m predecessor with one vehicle the code pools
the predecessor with its own predecessor lanes (here none), giving density
`1/5`, whereas the claim's `count / max(length, 10)` gives `1/10`; the code
never divides by the floor 10. -/
theorem GetPressure_short_pred_counterexample :
    GetPressure exPressureLane = some (1/5) ∧
      specPressureClaimed exPressureLane = some (1/10) ∧
      ((1:ℚ)/5) ≠ 1/10 := by
  refine ⟨?_, ?_, by norm_num⟩
  · rw [show GetPressure exPressureLane =
        some (pressureIncoming ⟨5, 1, [], [⟨1, 0⟩]⟩ - pressureOutgoing ⟨20, 0, [⟨1, 0⟩], []⟩)
      from rfl]
    norm_num [pressureIncoming, pressureOutgoing]
  · rw [specPressureClaimed]
    rw [if_neg (by decide), if_neg (by decide)]
    show some ((((1:ℕ) : ℚ)) / max 5 10 / ((1:ℚ)) - (((0:ℕ) : ℚ)) / max 20 10 / ((1:ℚ))) =
      some (1/10)
    norm_num

/-- C4 (amended): for a junction driving lane that is not right-turn and has
its unique predecessor and successor, `GetPressure` is the incoming minus
the outgoing density, where each density is vehicles over length when the
lane is longer than 10 m and otherwise pools the lane with its own
upstream (resp. downstream) junction lanes, each split over the branching
factor; when both neighbours are longer than 10 m this is exactly the
claim's formula with the `max(·, 10)` floor removed; walking lanes and
right-turn lanes give zero. -/
theorem GetPressure_spec :
    (∀ l pre suc, l.typ = LaneType.driving → l.turn ≠ LaneTurn.right →
      l.uniquePredecessor = some pre → l.uniqueSuccessor = some suc →
      GetPressure l = some (pressureIncoming pre - pressureOutgoing suc)) ∧
    (∀ pre : NbInfo, pre.length > 10 →
      pressureIncoming pre = (pre.vehicles : ℚ) / pre.length / ((pre.succs.length : ℚ))) ∧
    (∀ suc : NbInfo, suc.length > 10 →
      pressureOutgoing suc = (suc.vehicles : ℚ) / suc.length / ((suc.preds.length : ℚ))) ∧
    (∀ l, l.typ = LaneType.walking → GetPressure l = some 0) ∧
    (∀ l, l.typ = LaneType.driving → l.turn = LaneTurn.right → GetPressure l = some 0) := by
  refine ⟨?_, ?_, ?_, ?_, ?_⟩
  · intro l pre suc htyp hturn hpre hsuc
    rw [GetPressure, htyp, hpre, hsuc]
    simp [hturn]
  · intro pre h
    rw [pressureIncoming, if_pos h]
  · intro suc h
    rw [pressureOutgoing, if_pos h]
  · intro l htyp
    rw [GetPressure, htyp]
    simp
  · intro l htyp hturn
    rw [GetPressure, htyp, hturn]
    simp

/-- C4 witness: the amended pressure formula evaluated on concrete lanes. -/
theorem GetPressure_spec_witness :
    GetPressure exPressureLane =
      some (pressureIncoming { length := 5, vehicles := 1, preds := [], succs := [⟨1, 0⟩] } -
        pressureOutgoing { length := 20, vehicles := 0, preds := [⟨1, 0⟩], succs := [] }) ∧
    pressureOutgoing { length := 20, vehicles := 0, preds := [⟨1, 0⟩], succs := [] } =
      (0 : ℚ) / 20 / 1 ∧
    GetPressure { exPressureLane with typ := LaneType.walking } = some 0 ∧
    GetPressure { exPressureLane with turn := LaneTurn.right } = some 0 :=
  ⟨GetPressure_spec.1 exPressureLane _ _ (by rfl) (by decide) (by rfl) (by rfl),
   by
     have h := GetPressure_spec.2.2.1 { length := 20, vehicles := 0, preds := [⟨1, 0⟩], succs := [] }
       (by norm_num)
     simpa using h,
   GetPressure_spec.2.2.2.1 _ (by rfl),
   GetPressure_spec.2.2.2.2 _ (by rfl) (by rfl)⟩

/-! ## Pedestrian progression (`Person.updatePedestrian`,
`route.PedestrianRoute`, `Lane.IsNoEntry`) -/

/-- `mapv2.LightState`. -/
inductive LightState where
  | unspecifiedLight
  | red
  | yellow
  | green
deriving DecidableEq

/-- The view of a lane taken by the pedestrian update: its length, whether
it lies inside a junction, and its current light state. -/
structure PedLane where
  length : ℚ
  inJunction : Bool
  light : LightState
deriving DecidableEq

/-- `Lane.IsNoEntry`: inside a junction and not green. -/
def IsNoEntry (l : PedLane) : Bool :=
  l.inJunction && decide (l.light ≠ LightState.green)

/-- `route.PedestrianSegment`: a lane and a direction
(`forward = (Direction == MOVING_DIRECTION_FORWARD)`). -/
structure PedSegment where
  lane : PedLane
  forward : Bool
deriving DecidableEq

/-- `route.PedestrianRoute`: the segment list, the current index, and the
arc position `End.S` of the trip end on the last segment. -/
structure PedRoute where
  route : List PedSegment
  indexRoute : ℕ
  endS : ℚ
deriving DecidableEq

/-- Out-of-range default for segment lookups (the Go source would panic). -/
def defaultSegment : PedSegment := ⟨⟨0, false, LightState.red⟩, true⟩

/-- `PedestrianRoute.AtLast`. -/
def PedRoute.AtLast (r : PedRoute) : Bool :=
  decide (r.indexRoute + 1 ≥ r.route.length)

/-- `PedestrianRoute.Current`. -/
def PedRoute.Current (r : PedRoute) : PedSegment :=
  r.route.getD r.indexRoute defaultSegment

/-- `PedestrianRoute.Next`. -/
def PedRoute.Next (r : PedRoute) : PedSegment :=
  r.route.getD (r.indexRoute + 1) defaultSegment

/-- Result of the segment-advance loop inside `updatePedestrian`:
blocked by a no-entry next lane (`halt`), route exhausted with the
`isEnd := true` flag set (`exhausted`), or arc landed inside the current
lane (`inRange`). -/
inductive PedLoopRes where
  | halt
  | exhausted (r : PedRoute) (s : ℚ)
  | inRange (r : PedRoute) (s : ℚ)
deriving DecidableEq

/-- The `for` loop of `Person.updatePedestrian`: while the arc is outside
`[0, lane.length]`, refuse to enter a no-entry next segment (hard stop),
otherwise `Step` into it, folding the overflow over and reorienting when
the new segment runs backward; `Step` past the end leaves the index at the
last segment and flags the end of the route. -/
def pedLoop (r : PedRoute) (s : ℚ) : PedLoopRes :=
  if ¬(s < 0 ∨ s > (PedRoute.Current r).lane.length) then .inRange r s
  else if PedRoute.AtLast r = false ∧ IsNoEntry (PedRoute.Next r).lane then .halt
  else if h : r.indexRoute + 1 < r.route.length then
    pedLoop { r with indexRoute := r.indexRoute + 1 }
      (if (PedRoute.Next r).forward then
        (if s < 0 then -s
         else if s > (PedRoute.Current r).lane.length then
           s - (PedRoute.Current r).lane.length
         else s)
       else (PedRoute.Next r).lane.length -
        (if s < 0 then -s
         else if s > (PedRoute.Current r).lane.length then
           s - (PedRoute.Current r).lane.length
         else s))
  else .exhausted { r with indexRoute := r.route.length - 1 } s
termination_by r.route.length - r.indexRoute
decreasing_by simp; omega

/-- Result of one pedestrian step: `halt` writes only `runtime.V = 0`;
`finish` snaps the runtime position to the route end and removes the lane
node; `move` commits the new segment, arc position, speed and direction. -/
inductive PedOut where
  | halt
  | finish (endS : ℚ)
  | move (r : PedRoute) (s : ℚ) (v : ℚ) (fwd : Bool)
deriving DecidableEq

/-- The tail of `Person.updatePedestrian` after the loop: recompute the
trip-end flag on the last segment (arc at or beyond `End.S` in the travel
direction), clamp the arc into the lane, and either finish the trip or
commit the movement. -/
def pedPost (r : PedRoute) (s v : ℚ) (isEnd0 : Bool) : PedOut :=
  if (if PedRoute.AtLast r then
        (if (PedRoute.Current r).forward then decide (s ≥ r.endS) else decide (s ≤ r.endS))
      else isEnd0) then
    .finish r.endS
  else .move r (goClamp s 0 (PedRoute.Current r).lane.length) v (PedRoute.Current r).forward

/-- `Person.updatePedestrian`: the walking speed is doubled when the
current lane is no-entry (red light: hurry out of the junction), the arc
is advanced by `v*dt` in the segment direction, the loop folds the arc
onto the following segments, and the tail commits the outcome. -/
def updatePedestrian (dt walkingV : ℚ) (r : PedRoute) (s0 : ℚ) : PedOut :=
  match pedLoop r
    (if (PedRoute.Current r).forward then
      s0 + (if IsNoEntry (PedRoute.Current r).lane then 2 * walkingV else walkingV) * dt
     else
      s0 - (if IsNoEntry (PedRoute.Current r).lane then 2 * walkingV else walkingV) * dt) with
  | .halt => .halt
  | .exhausted r1 s => pedPost r1 s
      (if IsNoEntry (PedRoute.Current r).lane then 2 * walkingV else walkingV) true
  | .inRange r1 s => pedPost r1 s
      (if IsNoEntry (PedRoute.Current r).lane then 2 * walkingV else walkingV) false

/-- A red walking lane inside a junction, 100 m long. -/
def exPedLane : PedLane := ⟨100, true, LightState.red⟩

/-- A pedestrian route currently on the red junction lane `exPedLane`. -/
def exPedRouteRed : PedRoute :=
  ⟨[⟨exPedLane, true⟩, ⟨⟨50, false, LightState.green⟩, true⟩], 0, 40⟩

theorem goClamp_of_mem (x lo hi : ℚ) (h1 : lo ≤ x) (h2 : x ≤ hi) :
    goClamp x lo hi = x := by
  rw [goClamp, if_neg (not_lt.mpr h1), if_neg (not_lt.mpr h2)]

theorem pedHalt_lemma (dt walkingV s0 : ℚ) (r : PedRoute)
    (hfwd : (PedRoute.Current r).forward = true)
    (hover : s0 + (if IsNoEntry (PedRoute.Current r).lane then 2 * walkingV
      else walkingV) * dt > (PedRoute.Current r).lane.length)
    (hlt : r.indexRoute + 1 < r.route.length)
    (hne : IsNoEntry (PedRoute.Next r).lane = true) :
    updatePedestrian dt walkingV r s0 = PedOut.halt := by
  rw [updatePedestrian, hfwd]
  simp only [eq_self_iff_true, if_true]
  rw [pedLoop]
  have hAtLast : PedRoute.AtLast r = false := by
    rw [PedRoute.AtLast]
    simp
    omega
  rw [if_neg (by push_neg; exact Or.inr hover), if_pos ⟨hAtLast, hne⟩]

theorem pedDouble_lemma (dt walkingV s0 : ℚ) (r : PedRoute)
    (hne : IsNoEntry (PedRoute.Current r).lane = true)
    (hfwd : (PedRoute.Current r).forward = true)
    (h0 : 0 ≤ s0 + 2 * walkingV * dt)
    (h1 : s0 + 2 * walkingV * dt ≤ (PedRoute.Current r).lane.length)
    (hlt : r.indexRoute + 1 < r.route.length) :
    updatePedestrian dt walkingV r s0 =
      PedOut.move r (s0 + 2 * walkingV * dt) (2 * walkingV) true := by
  rw [updatePedestrian, hfwd]
  simp only [hne, eq_self_iff_true, if_true]
  rw [pedLoop]
  rw [if_pos (by push_neg; exact ⟨by linarith, h1⟩)]
  show pedPost r (s0 + 2 * walkingV * dt) (2 * walkingV) false = _
  have hAtLast : PedRoute.AtLast r = false := by
    rw [PedRoute.AtLast]
    simp
    omega
  unfold pedPost
  rw [hAtLast]
  simp only [Bool.false_eq_true, if_false]
  rw [goClamp_of_mem _ _ _ h0 h1, hfwd]

/-- C6 counterexample: a pedestrian whose current segment lane is a walking
lane inside a junction with a red light moves at TWICE the walking speed
(the source doubles `v` on `IsNoEntry` to clear the junction); its speed
for the step is `2`, not `0` as the claim states. -/
theorem updatePedestrian_red_counterexample :
    updatePedestrian 1 1 exPedRouteRed 10 = PedOut.move exPedRouteRed 12 2 true ∧
      (2 : ℚ) ≠ 0 := by
  constructor
  · have h := pedDouble_lemma 1 1 10 exPedRouteRed (by rfl) (by rfl)
      (by norm_num) (by norm_num [PedRoute.Current, exPedRouteRed, exPedLane])
      (by norm_num [exPedRouteRed])
    rw [h]
    norm_num
  · norm_num

/-- C6 (amended): (1) a pedestrian whose step would cross into a next
segment whose lane is no-entry (red junction lane) halts — only
`runtime.V = 0` is written, the position does not change; (2) a pedestrian
ON a no-entry lane walks at double speed for the step; (3) when the next
segment's lane is not no-entry (light green) the pedestrian crosses into
it at its (possibly doubled) walking speed. -/
theorem updatePedestrian_spec :
    (∀ dt walkingV s0 (r : PedRoute),
      (PedRoute.Current r).forward = true →
      s0 + (if IsNoEntry (PedRoute.Current r).lane then 2 * walkingV else walkingV) * dt >
        (PedRoute.Current r).lane.length →
      r.indexRoute + 1 < r.route.length →
      IsNoEntry (PedRoute.Next r).lane = true →
      updatePedestrian dt walkingV r s0 = PedOut.halt) ∧
    (∀ dt walkingV s0 (r : PedRoute),
      IsNoEntry (PedRoute.Current r).lane = true →
      (PedRoute.Current r).forward = true →
      0 ≤ s0 + 2 * walkingV * dt →
      s0 + 2 * walkingV * dt ≤ (PedRoute.Current r).lane.length →
      r.indexRoute + 1 < r.route.length →
      updatePedestrian dt walkingV r s0 =
        PedOut.move r (s0 + 2 * walkingV * dt) (2 * walkingV) true) ∧
    (∀ dt walkingV s0 (r : PedRoute),
      (PedRoute.Current r).forward = true →
      0 ≤ (PedRoute.Current r).lane.length →
      s0 + (if IsNoEntry (PedRoute.Current r).lane then 2 * walkingV else walkingV) * dt >
        (PedRoute.Current r).lane.length →
      r.indexRoute + 2 < r.route.length →
      IsNoEntry (PedRoute.Next r).lane = false →
      (PedRoute.Next r).forward = true →
      s0 + (if IsNoEntry (PedRoute.Current r).lane then 2 * walkingV else walkingV) * dt -
        (PedRoute.Current r).lane.length ≤ (PedRoute.Next r).lane.length →
      updatePedestrian dt walkingV r s0 =
        PedOut.move { r with indexRoute := r.indexRoute + 1 }
          (s0 + (if IsNoEntry (PedRoute.Current r).lane then 2 * walkingV else walkingV) * dt -
            (PedRoute.Current r).lane.length)
          (if IsNoEntry (PedRoute.Current r).lane then 2 * walkingV else walkingV) true) := by
  refine ⟨pedHalt_lemma, pedDouble_lemma, ?_⟩
  · intro dt walkingV s0 r hfwd hlen hover hlt hne hfwd2 hbound
    rw [updatePedestrian, hfwd]
    simp only [eq_self_iff_true, if_true]
    rw [pedLoop]
    have hAtLast : PedRoute.AtLast r = false := by
      rw [PedRoute.AtLast]
      simp
      omega
    rw [if_neg (by push_neg; exact Or.inr hover)]
    rw [if_neg (by rw [hne]; simp)]
    rw [dif_pos (by omega : r.indexRoute + 1 < r.route.length)]
    rw [hfwd2]
    simp only [eq_self_iff_true, if_true]
    have hspos : ¬ (s0 + (if IsNoEntry (PedRoute.Current r).lane then 2 * walkingV
        else walkingV) * dt < 0) := by
      push_neg
      linarith
    rw [if_neg hspos, if_pos hover]
    set s2 := s0 + (if IsNoEntry (PedRoute.Current r).lane then 2 * walkingV
      else walkingV) * dt - (PedRoute.Current r).lane.length with hs2
    have hcur1 : PedRoute.Current { r with indexRoute := r.indexRoute + 1 } =
        PedRoute.Next r := rfl
    rw [pedLoop]
    rw [if_pos (by
      push_neg
      rw [hcur1]
      constructor
      · rw [hs2]; linarith
      · exact hbound)]
    show pedPost { r with indexRoute := r.indexRoute + 1 } s2
      (if IsNoEntry (PedRoute.Current r).lane then 2 * walkingV else walkingV) false = _
    unfold pedPost
    rw [hcur1]
    have hAtLast1 : PedRoute.AtLast { r with indexRoute := r.indexRoute + 1 } = false := by
      rw [PedRoute.AtLast]
      simp
      omega
    rw [hAtLast1]
    simp only [Bool.false_eq_true, if_false]
    rw [goClamp_of_mem _ _ _ (by rw [hs2]; linarith) hbound, hfwd2]

/-- C6 witness: the three amended behaviours on concrete routes — halting
before a red next lane, double speed on a red current lane, and crossing
into a green next lane. -/
theorem updatePedestrian_spec_witness :
    updatePedestrian 1 1 ⟨[⟨⟨10, false, LightState.green⟩, true⟩,
        ⟨⟨10, true, LightState.red⟩, true⟩], 0, 5⟩ (19/2) = PedOut.halt ∧
    updatePedestrian 1 1 exPedRouteRed 10 =
      PedOut.move exPedRouteRed (10 + 2 * 1 * 1) (2 * 1) true ∧
    updatePedestrian 2 1 ⟨[⟨⟨10, false, LightState.green⟩, true⟩,
        ⟨⟨20, true, LightState.green⟩, true⟩, ⟨⟨30, false, LightState.green⟩, true⟩], 0, 5⟩ 9 =
      PedOut.move ⟨[⟨⟨10, false, LightState.green⟩, true⟩,
        ⟨⟨20, true, LightState.green⟩, true⟩, ⟨⟨30, false, LightState.green⟩, true⟩], 1, 5⟩
        (9 + 1 * 2 - 10) 1 true := by
  refine ⟨?_, ?_, ?_⟩
  · exact updatePedestrian_spec.1 1 1 (19/2) _ (by rfl)
      (by norm_num [PedRoute.Current, IsNoEntry, defaultSegment]) (by norm_num)
      (by rfl)
  · exact updatePedestrian_spec.2.1 1 1 10 exPedRouteRed (by rfl) (by rfl)
      (by norm_num) (by norm_num [PedRoute.Current, exPedRouteRed, exPedLane])
      (by norm_num [exPedRouteRed])
  · have h := updatePedestrian_spec.2.2 2 1 9
      ⟨[⟨⟨10, false, LightState.green⟩, true⟩, ⟨⟨20, true, LightState.green⟩, true⟩,
        ⟨⟨30, false, LightState.green⟩, true⟩], 0, 5⟩
      (by rfl) (by norm_num [PedRoute.Current, defaultSegment])
      (by norm_num [PedRoute.Current, IsNoEntry, defaultSegment])
      (by norm_num) (by rfl) (by rfl)
      (by norm_num [PedRoute.Current, PedRoute.Next, IsNoEntry, defaultSegment])
    simpa [PedRoute.Current, PedRoute.Next, IsNoEntry, defaultSegment] using h

/-! ## Person lifecycle: `WAIT_ROUTE` failure (`Person.update`,
`Person.routeSuccessful`, `Schedule.NextTrip`) -/

/-- `personv2.Status` (the values `Person.update` dispatches on). -/
inductive Status where
  | sleep
  | waitRoute
  | walking
  | driving
  | passenger
deriving DecidableEq

/-- One `tripv2.Schedule` as read by `Schedule.NextTrip`: its trip count,
loop count, and optional wait/departure times. -/
structure GoSchedule where
  trips : ℕ
  loopCount : ℤ
  waitTime : Option ℚ
  departureTime : Option ℚ
deriving DecidableEq

/-- The mutable state of `schedule.Schedule`. -/
structure ScheduleState where
  base : List GoSchedule
  ScheduleIndex : ℕ
  TripIndex : ℕ
  loopCount : ℕ
  lastTripEndTime : ℚ
deriving DecidableEq

/-- `Schedule.NextTrip(time)`: advance the trip index; on wrapping, advance
the loop counter and possibly the schedule index, folding the next
schedule's wait/departure time into `lastTripEndTime`; returns whether a
trip remains. -/
def NextTrip (st : ScheduleState) (time : ℚ) : ScheduleState × Bool :=
  if st.base.length = 0 then (st, false)
  else if st.TripIndex + 1 = (st.base.getD st.ScheduleIndex ⟨0, 0, none, none⟩).trips then
    if 0 < (st.base.getD st.ScheduleIndex ⟨0, 0, none, none⟩).loopCount ∧
        (st.base.getD st.ScheduleIndex ⟨0, 0, none, none⟩).loopCount ≤ (st.loopCount + 1 : ℤ) then
      if st.ScheduleIndex + 1 = st.base.length then
        ({ st with
            lastTripEndTime := time, TripIndex := 0, loopCount := 0,
            base := [], ScheduleIndex := 0 }, false)
      else
        ({ st with
            lastTripEndTime :=
              (match (st.base.getD (st.ScheduleIndex + 1) ⟨0, 0, none, none⟩).waitTime with
              | some w => time + w
              | none =>
                (match (st.base.getD (st.ScheduleIndex + 1) ⟨0, 0, none, none⟩).departureTime with
                | some d => d
                | none => time)),
            TripIndex := 0, loopCount := 0,
            ScheduleIndex := st.ScheduleIndex + 1 }, true)
    else
      ({ st with
          lastTripEndTime := time, TripIndex := 0,
          loopCount := st.loopCount + 1 }, true)
  else
    ({ st with lastTripEndTime := time, TripIndex := st.TripIndex + 1 }, true)

/-- The position fields of the person runtime read by the claim: logical
position (lane id or AOI id), arc position, and coordinates. -/
structure PersonPos where
  lane : Option ℕ
  aoi : Option ℕ
  S : ℚ
  XYZ : ℚ × ℚ × ℚ
deriving DecidableEq

/-- The person state the `WAIT_ROUTE` branch of `Person.update` touches:
status, position, the resolved route-planning outcome
(`multiModalRoute.Ok()` after `Wait()`), and the schedule. -/
structure PersonState where
  status : Status
  pos : PersonPos
  routeOk : Bool
  sched : ScheduleState
deriving DecidableEq

/-- `Person.routeSuccessful`: after waiting for the planner, succeed if the
route is Ok; otherwise advance the schedule to the next trip and report
failure. -/
def routeSuccessful (p : PersonState) (time : ℚ) : PersonState × Bool :=
  if p.routeOk then (p, true)
  else ({ p with sched := (NextTrip p.sched time).1 }, false)

/-- The `WAIT_ROUTE` case of `Person.update`: on failure set the status
back to SLEEP and return; on success leave through `updateGoOut`
(abstracted as `goOut`). -/
def personUpdateWaitRoute (goOut : PersonState → PersonState) (time : ℚ)
    (p : PersonState) : PersonState :=
  if (routeSuccessful p time).2 = false then
    { (routeSuccessful p time).1 with status := Status.sleep }
  else goOut (routeSuccessful p time).1

/-- The status dispatch of `Person.update`; the SLEEP, WALKING and DRIVING
bodies are abstracted as parameters (the statements proved below hold for
every behaviour of those branches), and the default branch panics
(`none`). -/
def personUpdate (sleepStep walkStep driveStep goOut : PersonState → PersonState)
    (time : ℚ) (p : PersonState) : Option PersonState :=
  match p.status with
  | .sleep => some (sleepStep p)
  | .waitRoute => some (personUpdateWaitRoute goOut time p)
  | .walking => some (walkStep p)
  | .driving => some (driveStep p)
  | .passenger => none

/-- C9: a person in WAIT_ROUTE whose route planning completed
unsuccessfully is set back to SLEEP with the schedule advanced by
`NextTrip`, and its position (lane/AOI, arc position, coordinates) is
untouched by the transition. -/
theorem waitRoute_failure_spec
    (sleepStep walkStep driveStep goOut : PersonState → PersonState)
    (time : ℚ) (p : PersonState)
    (hst : p.status = Status.waitRoute) (hok : p.routeOk = false) :
    personUpdate sleepStep walkStep driveStep goOut time p =
      some { p with status := Status.sleep, sched := (NextTrip p.sched time).1 } ∧
    ({ p with status := Status.sleep, sched := (NextTrip p.sched time).1 } :
      PersonState).pos = p.pos := by
  constructor
  · rw [personUpdate, hst]
    rw [personUpdateWaitRoute, routeSuccessful, hok]
    simp
  · rfl

/-- C9 witness: a concrete waiting person whose route failed. -/
theorem waitRoute_failure_witness :
    personUpdate id id id id 7
      ⟨Status.waitRoute, ⟨some 3, none, 5, (1, 2, 0)⟩, false,
        ⟨[⟨2, 1, none, none⟩], 0, 0, 0, 0⟩⟩ =
      some { (⟨Status.waitRoute, ⟨some 3, none, 5, (1, 2, 0)⟩, false,
          ⟨[⟨2, 1, none, none⟩], 0, 0, 0, 0⟩⟩ : PersonState) with
        status := Status.sleep,
        sched := (NextTrip ⟨[⟨2, 1, none, none⟩], 0, 0, 0, 0⟩ 7).1 } :=
  (waitRoute_failure_spec id id id id 7
    ⟨Status.waitRoute, ⟨some 3, none, 5, (1, 2, 0)⟩, false,
      ⟨[⟨2, 1, none, none⟩], 0, 0, 0, 0⟩⟩ (by rfl) (by rfl)).1

/-! ## Max-Pressure controller guard (`trafficlight.mpTrafficLight`) -/

/-- `mpTlRuntime`: the runtime data of the Max-Pressure controller. -/
structure MpRuntime where
  phases : List (List LightState)
  index : ℕ
  repeatCount : ℕ
  totalTime : ℚ
  remainingT : ℚ
  transitionPhases : List (List LightState)
  transitionTimes : List ℚ
  nextIndex : ℕ
deriving DecidableEq

/-- `mpTrafficLight`: the controller with its double-buffered on/off flag;
`numLanes` is the number of controlled lanes. -/
structure MpTrafficLight where
  junctionID : ℕ
  numLanes : ℕ
  snapshotRemainingT : ℚ
  runtime : MpRuntime
  ok : Bool
  okBuffer : Bool
deriving DecidableEq

/-- `mpTrafficLight.Prepare`: commit the ok buffer and the remaining-time
snapshot, then write one light per lane: all-green with infinite times when
fewer than two phases are available or the controller is off; otherwise the
current (transition) phase, extending greens that stay green into the next
phase by `phaseTime`. -/
def mpPrepare (phaseTime inf : ℚ) (t : MpTrafficLight) :
    MpTrafficLight × List (LightState × ℚ × ℚ) :=
  if t.runtime.phases.length < 2 ∨ t.okBuffer = false then
    ({ t with ok := t.okBuffer, snapshotRemainingT := t.runtime.remainingT },
      (List.range t.numLanes).map fun _ => (LightState.green, inf, inf))
  else if t.runtime.transitionPhases.length > 0 then
    ({ t with ok := t.okBuffer, snapshotRemainingT := t.runtime.remainingT },
      (List.range t.numLanes).map fun i =>
        if (t.runtime.transitionPhases.getD 0 []).getD i LightState.unspecifiedLight =
            LightState.green ∧
          ((if t.runtime.transitionPhases.length > 1 then t.runtime.transitionPhases.getD 1 []
            else t.runtime.phases.getD t.runtime.nextIndex []).getD i
              LightState.unspecifiedLight) = LightState.green then
          (LightState.green, t.runtime.totalTime + phaseTime, t.runtime.remainingT + phaseTime)
        else ((t.runtime.transitionPhases.getD 0 []).getD i LightState.unspecifiedLight,
          t.runtime.totalTime, t.runtime.remainingT))
  else
    ({ t with ok := t.okBuffer, snapshotRemainingT := t.runtime.remainingT },
      (List.range t.numLanes).map fun i =>
        ((t.runtime.phases.getD t.runtime.index []).getD i LightState.unspecifiedLight,
          t.runtime.totalTime, t.runtime.remainingT))

/-- `mpTrafficLight.Update`: disabled controllers return immediately;
otherwise decrement the remaining time and, when it runs out, step through
the transition schedule or (abstracted as `advance`) run the max-pressure
phase selection, finally committing `totalTime := remainingT`. -/
def mpUpdate (dt phaseTime : ℚ) (advance : MpRuntime → MpRuntime)
    (t : MpTrafficLight) : MpTrafficLight :=
  if t.runtime.phases.length < 2 ∨ t.ok = false then t
  else if t.runtime.remainingT - dt > 0 then
    { t with runtime := { t.runtime with remainingT := t.runtime.remainingT - dt } }
  else if t.runtime.transitionPhases.length = 1 then
    { t with runtime :=
      { t.runtime with
        index := t.runtime.nextIndex,
        remainingT := t.runtime.remainingT - dt + phaseTime,
        totalTime := t.runtime.remainingT - dt + phaseTime,
        transitionPhases := [] } }
  else if t.runtime.transitionPhases.length > 1 then
    { t with runtime :=
      { t.runtime with
        transitionPhases := t.runtime.transitionPhases.drop 1,
        transitionTimes := t.runtime.transitionTimes.drop 1,
        remainingT := t.runtime.remainingT - dt + t.runtime.transitionTimes.getD 1 0,
        totalTime := t.runtime.remainingT - dt + t.runtime.transitionTimes.getD 1 0 } }
  else
    { t with runtime :=
      { (advance { t.runtime with remainingT := t.runtime.remainingT - dt }) with
        totalTime :=
          (advance { t.runtime with remainingT := t.runtime.remainingT - dt }).remainingT } }

/-- C10: when the available-phase list has fewer than two phases or the Ok
flag is off, `Prepare` assigns GREEN with infinite total and remaining time
to every controlled lane (leaving the runtime untouched), and `Update`
returns without changing the controller at all. -/
theorem mpDisabled_spec (dt phaseTime inf : ℚ) (advance : MpRuntime → MpRuntime)
    (t : MpTrafficLight) :
    (t.runtime.phases.length < 2 ∨ t.okBuffer = false →
      (mpPrepare phaseTime inf t).2 =
        List.replicate t.numLanes (LightState.green, inf, inf) ∧
      (mpPrepare phaseTime inf t).1.runtime = t.runtime) ∧
    (t.runtime.phases.length < 2 ∨ t.ok = false →
      mpUpdate dt phaseTime advance t = t) := by
  constructor
  · intro h
    rw [mpPrepare, if_pos h]
    constructor
    · simp [List.map_const']
    · rfl
  · intro h
    rw [mpUpdate, if_pos h]

/-- C10 witness: a disabled controller (no phases, ok buffer off). -/
theorem mpDisabled_spec_witness :
    (mpPrepare 15 1000000 ⟨1, 2, 0, ⟨[], 0, 0, 0, 0, [], [], 0⟩, false, false⟩).2 =
      List.replicate 2 (LightState.green, 1000000, 1000000) ∧
    mpUpdate 1 15 id ⟨1, 2, 0, ⟨[], 0, 0, 0, 0, [], [], 0⟩, false, false⟩ =
      ⟨1, 2, 0, ⟨[], 0, 0, 0, 0, [], [], 0⟩, false, false⟩ :=
  ⟨((mpDisabled_spec 1 15 1000000 id
      ⟨1, 2, 0, ⟨[], 0, 0, 0, 0, [], [], 0⟩, false, false⟩).1 (by norm_num)).1,
   (mpDisabled_spec 1 15 1000000 id
      ⟨1, 2, 0, ⟨[], 0, 0, 0, 0, [], [], 0⟩, false, false⟩).2 (by norm_num)⟩

end AgentSociety
